import Mathlib

/-!
Shallow embedding of the molting-memory repository
(src/scripts/memory_brain.py and src/scripts/ingest_sessions.py).

Modelling conventions, used consistently below:
  * a directory is an association list `Fs = List (String × String)` from
    file stem (filename without the ".md" extension; every file the code
    creates or globs is an ".md" file) to file content;
  * `datetime` values are a count of seconds (`Int`); a calendar date is
    an epoch-day number (`Int`), and the "YYYY-MM-DD" rendering/parsing of
    `strftime`/`strptime` is implemented below on the proleptic Gregorian
    calendar;
  * similarity scores (floats only ever assigned and compared, never
    computed with) are modelled as `Rat`;
  * a Python function that may raise is modelled with `Option`; a method
    mutating `self` takes and returns the explicit state.
-/

/-- ASCII lower-casing of one character (Python `str.lower` on ASCII). -/
def lowerChar (c : Char) : Char :=
  if 'A' ≤ c && c ≤ 'Z' then Char.ofNat (c.toNat + 32) else c

/-- ASCII upper-casing of one character (Python `str.upper` on ASCII). -/
def upperChar (c : Char) : Char :=
  if 'a' ≤ c && c ≤ 'z' then Char.ofNat (c.toNat - 32) else c

/-- Python `s.lower()`. -/
def lowerStr (s : String) : String := String.mk (s.toList.map lowerChar)

/-- Python `s.upper()`. -/
def upperStr (s : String) : String := String.mk (s.toList.map upperChar)

/-- Split a character list at every occurrence of `sep`. -/
def splitChar (sep : Char) : List Char → List (List Char)
  | [] => [[]]
  | c :: t =>
    match splitChar sep t with
    | [] => [[]]
    | h :: t' => if c = sep then [] :: h :: t' else (c :: h) :: t'

/-- Python `s.split(sep)` for a one-character separator. -/
def strSplit (s : String) (sep : Char) : List String :=
  (splitChar sep s.toList).map String.mk

/-- Whitespace characters stripped by Python `str.strip()`. -/
def isSpaceChar (c : Char) : Bool :=
  c = ' ' || c = '\t' || c = '\n' || c = '\r' || c = '\x0b' || c = '\x0c'

/-- Python `s.strip()`. -/
def strTrim (s : String) : String :=
  String.mk (((s.toList.dropWhile isSpaceChar).reverse.dropWhile isSpaceChar).reverse)

/-- Fuel-indexed worker for `strReplace`; the fuel bounds the number of
steps and is supplied as the length of the subject list. -/
def replaceFuel : Nat → List Char → List Char → List Char → List Char
  | 0, l, _, _ => l
  | _ + 1, [], _, _ => []
  | fuel + 1, c :: t, pat, rep =>
    if !pat.isEmpty && pat.isPrefixOf (c :: t) then
      rep ++ replaceFuel fuel (List.drop pat.length (c :: t)) pat rep
    else c :: replaceFuel fuel t pat rep

/-- Python `s.replace(pat, rep)` (leftmost, non-overlapping); the source
never calls it with an empty pattern, on which this returns `s`. -/
def strReplace (s pat rep : String) : String :=
  String.mk (replaceFuel s.length s.toList pat.toList rep.toList)

/-- Python `s.startswith(p)`. -/
def strStartsWith (s p : String) : Bool := p.toList.isPrefixOf s.toList

/-- Join a list of strings with a separator. -/
def joinWith (sep : String) : List String → String
  | [] => ""
  | [x] => x
  | x :: y :: t => x ++ sep ++ joinWith sep (y :: t)

/-- Python's `needle in hay` substring test, on explicit character lists. -/
def containsSub (hay needle : List Char) : Bool :=
  match hay with
  | [] => needle.isEmpty
  | _ :: t => needle.isPrefixOf hay || containsSub t needle

/-- Python's `needle in hay` on strings (case-sensitive substring test). -/
def strContains (hay needle : String) : Bool :=
  containsSub hay.toList needle.toList

/-- Case-insensitive substring test: `needle.lower() in hay.lower()`. -/
def containsCI (hay needle : String) : Bool :=
  strContains (lowerStr hay) (lowerStr needle)

/-- Python slicing `s[:n]` on a string. -/
def pyTake (n : Nat) (s : String) : String :=
  ⟨s.toList.take n⟩

/-- A directory: association list from file stem to file content. The
same type models Python dicts (keyed, insertion-ordered). -/
abbrev Fs := List (String × String)

/-- Keyed lookup (`Path.read_text` / `Path.exists` / dict access). -/
def fsGet {α : Type} (fs : List (String × α)) (k : String) : Option α :=
  match fs with
  | [] => none
  | (k', v) :: rest => if k' = k then some v else fsGet rest k

/-- Keyed update (`Path.write_text` / dict assignment): replaces the
value in place if the key exists, appends it otherwise. -/
def fsWrite {α : Type} (fs : List (String × α)) (k : String) (v : α) :
    List (String × α) :=
  match fs with
  | [] => [(k, v)]
  | (k', v') :: rest => if k' = k then (k, v) :: rest else (k', v') :: fsWrite rest k v

/-- Keyed removal (`Path.unlink`): removes the first entry with key `k`. -/
def fsErase {α : Type} (fs : List (String × α)) (k : String) :
    List (String × α) :=
  match fs with
  | [] => []
  | (k', v') :: rest => if k' = k then rest else (k', v') :: fsErase rest k

/-- The keys present in a keyed list. -/
def fsKeys {α : Type} (fs : List (String × α)) : List String := fs.map Prod.fst

/-! ### Calendar: strftime / strptime with format "%Y-%m-%d"

Dates are epoch-day numbers (`Int`, day 0 = 1970-01-01); datetimes are
seconds (`Int`). Conversions use the standard civil-calendar algorithms. -/

/-- Epoch day number of the Gregorian date (y, m, d). -/
def daysFromCivil (y m d : Int) : Int :=
  let y := if m ≤ 2 then y - 1 else y
  let era := Int.fdiv y 400
  let yoe := y - era * 400
  let mp := if m > 2 then m - 3 else m + 9
  let doy := Int.fdiv (153 * mp + 2) 5 + d - 1
  let doe := yoe * 365 + Int.fdiv yoe 4 - Int.fdiv yoe 100 + doy
  era * 146097 + doe - 719468

/-- Gregorian date (y, m, d) of an epoch day number. -/
def civilFromDays (z : Int) : Int × Int × Int :=
  let z := z + 719468
  let era := Int.fdiv z 146097
  let doe := z - era * 146097
  let yoe :=
    Int.fdiv (doe - Int.fdiv doe 1460 + Int.fdiv doe 36524 - Int.fdiv doe 146096) 365
  let y := yoe + era * 400
  let doy := doe - (365 * yoe + Int.fdiv yoe 4 - Int.fdiv yoe 100)
  let mp := Int.fdiv (5 * doy + 2) 153
  let d := doy - Int.fdiv (153 * mp + 2) 5 + 1
  let m := if mp < 10 then mp + 3 else mp - 9
  (if m ≤ 2 then y + 1 else y, m, d)

/-- Zero-pad a nonnegative number to a given width. -/
def padNum (width : Nat) (n : Int) : String :=
  let s := toString n.toNat
  String.mk (List.replicate (width - s.length) '0') ++ s

/-- `strftime("%Y-%m-%d")` of an epoch day. -/
def formatDate (z : Int) : String :=
  let c := civilFromDays z
  padNum 4 c.1 ++ "-" ++ padNum 2 c.2.1 ++ "-" ++ padNum 2 c.2.2

/-- Calendar day of a datetime in seconds. -/
def dayOf (sec : Int) : Int := Int.fdiv sec 86400

/-- `strftime("%H:%M")` of a datetime in seconds. -/
def formatHM (sec : Int) : String :=
  let tod := sec - dayOf sec * 86400
  padNum 2 (Int.fdiv tod 3600) ++ ":" ++ padNum 2 (Int.fdiv (Int.emod tod 3600) 60)

/-- `strftime("%Y-%m-%d %H:%M")` of a datetime in seconds. -/
def formatDateHM (sec : Int) : String :=
  formatDate (dayOf sec) ++ " " ++ formatHM sec

/-- Parse a nonempty all-digit string as a number. -/
def parseDigits (s : String) : Option Nat :=
  if s.isEmpty then none
  else
    s.toList.foldl
      (fun acc c =>
        match acc with
        | none => none
        | some n => if c.isDigit then some (n * 10 + (c.toNat - 48)) else none)
      (some 0)

/-- Gregorian leap-year test. -/
def isLeap (y : Int) : Bool :=
  (Int.emod y 4 == 0 && Int.emod y 100 != 0) || Int.emod y 400 == 0

/-- Number of days in a month. -/
def daysInMonth (y m : Int) : Int :=
  if m = 2 then (if isLeap y then 29 else 28)
  else if ([4, 6, 9, 11] : List Int).contains m then 30
  else 31

/-- `datetime.strptime(s, "%Y-%m-%d")`, returning the epoch day on
success and `none` where Python raises `ValueError`: the year field is
1-4 digits, month and day 1-2 digits, and the triple must be a valid
calendar date. -/
def parseDate (s : String) : Option Int :=
  match strSplit s '-' with
  | [ys, ms, ds] =>
    match parseDigits ys, parseDigits ms, parseDigits ds with
    | some y, some m, some d =>
      if ys.length ≤ 4 && ms.length ≤ 2 && ds.length ≤ 2
          && 1 ≤ (m : Int) && (m : Int) ≤ 12 && 1 ≤ (d : Int)
          && (d : Int) ≤ daysInMonth (y : Int) (m : Int) then
        some (daysFromCivil (y : Int) (m : Int) (d : Int))
      else none
    | _, _, _ => none
  | _ => none


/-! ### Significance filter (src/scripts/ingest_sessions.py) -/

/-- One timestamped role/text turn as produced by `parse_session_file`. -/
structure Msg where
  role : String
  content : String
  timestamp : Int
deriving Repr, DecidableEq

/-- A memory entry as produced by `extract_memory_entries`. -/
structure MemEntry where
  content : String
  category : String
  role : String
deriving Repr, DecidableEq

/-- The role/content filter applied inside `parse_session_file`
(`if text_content and role in ["user", "assistant"]`). -/
def parseKeeps (role content : String) : Bool :=
  !(content == "") && (role == "user" || role == "assistant")

/-- `parse_session_file`, modelled from the point where the raw JSONL
lines have been decoded into role/content/timestamp triples (the raw
transcript decoding is out of the claims' scope): keeps turns passing
`parseKeeps`. -/
def parse_session_file (raw : List Msg) : List Msg :=
  raw.filter fun m => parseKeeps m.role m.content

/-- The fixed noise markers of `extract_memory_entries`. -/
def noiseMarkers : List String :=
  ["HEARTBEAT_OK", "Read HEARTBEAT.md", "system:", "\x7b"]

/-- `extract_memory_entries`: drops turns containing a noise marker or
shorter than 50 characters; keeps role and content untouched. -/
def extract_memory_entries (messages : List Msg) : List MemEntry :=
  messages.filterMap fun m =>
    if noiseMarkers.any (fun x => strContains m.content x) then none
    else if m.content.length < 50 then none
    else some ⟨m.content, "conversation", m.role⟩

/-- The whole Significance Filter pipeline on a single turn: the turn
survives `parse_session_file` followed by `extract_memory_entries`. -/
def significanceKeeps (m : Msg) : Bool :=
  !(extract_memory_entries (parse_session_file [m])).isEmpty


/-! ### MemoryBrain state (src/scripts/memory_brain.py) -/

/-- `strftime` of an ISO instant; the model keeps timestamps at whole
seconds, so the fractional part is not rendered. -/
def formatISO (sec : Int) : String :=
  let tod := sec - dayOf sec * 86400
  formatDate (dayOf sec) ++ "T" ++ padNum 2 (Int.fdiv tod 3600) ++ ":"
    ++ padNum 2 (Int.fdiv (Int.emod tod 3600) 60) ++ ":" ++ padNum 2 (Int.emod tod 60)

def MEMORY_DIR : String := "/home/vel/.openclaw/memory"

def QUARANTINE_DIR : String := MEMORY_DIR ++ "/entities/_quarantine"

def DISTILLED_DIR : String := MEMORY_DIR ++ "/distilled"

def COLLECTIONS : List String :=
  ["mem_steven", "mem_kaylie", "mem_projects", "mem_velcrafting",
   "mem_ren_collective", "mem_sessions", "mem_distilled"]

/-- One record of `self.tracking["quarantine"]`. -/
structure QEntry where
  name : String
  file : String
  timestamp : Int
  status : String
deriving Repr, DecidableEq

/-- One record of `self.tracking["validated_entities"]`. -/
structure VEntry where
  name : String
  file : String
  collection : String
  timestamp : Int
deriving Repr, DecidableEq

/-- One record of `self.tracking["weekly_summaries"]`. -/
structure WeeklyRec where
  file : String
  entries_consolidated : Nat
  timestamp : Int
deriving Repr, DecidableEq

/-- The tracking ledger (`access_tracking.json`), restricted to the
fields the modelled operations read or write. -/
structure Tracking where
  quarantine : List QEntry
  validated_entities : List VEntry
  weekly_summaries : List (String × WeeklyRec)
deriving Repr, DecidableEq

/-- The filesystem state a `MemoryBrain` instance operates on. Keys of
each directory are file stems (names without the ".md" extension). -/
structure BrainState where
  memFiles : Fs
  distilled : Fs
  quarantineDir : Fs
  entitiesDir : Fs
  archiveDir : Fs
  tracking : Tracking
deriving Repr, DecidableEq

/-! ### Entity quarantine -/

/-- `entity_name.lower().replace(' ', '_')`: the quarantine file stem. -/
def entitySlug (name : String) : String :=
  strReplace (lowerStr name) " " "_"

/-- The quarantine record body written by `quarantine_entity`. -/
def quarantineDoc (entity_name context : String) (now : Int) : String :=
  "# " ++ entity_name ++ " (IN QUARANTINE)\n\n"
    ++ "*Discovered: " ++ formatDateHM now ++ "*\n"
    ++ "*Status: PENDING VALIDATION*\n\n"
    ++ "## Context\n\n"
    ++ (if context.isEmpty then "Discovered during conversation." else context) ++ "\n\n"
    ++ "## Keywords\n\n"
    ++ "- " ++ entity_name ++ "\n"
    ++ "- " ++ entitySlug entity_name ++ "\n\n"
    ++ "## Validation\n\n"
    ++ "- [ ] Confirm entity exists\n"
    ++ "- [ ] Determine entity type (person, project, topic)\n"
    ++ "- [ ] Add to appropriate collection\n\n"
    ++ "---\n\n"
    ++ "*Auto-generated by MemoryBrain. Must be validated before promotion.*\n"

/-- The dictionary `quarantine_entity` returns. -/
structure QuarantineResult where
  entity : String
  file : String
  status : String
deriving Repr, DecidableEq

/-- `MemoryBrain.quarantine_entity`: writes the quarantine record file
and unconditionally appends a pending record to the ledger. -/
def quarantine_entity (st : BrainState) (entity_name context : String)
    (now : Int) : BrainState × QuarantineResult :=
  let slug := entitySlug entity_name
  let path := QUARANTINE_DIR ++ "/" ++ slug ++ ".md"
  let qd := fsWrite st.quarantineDir slug (quarantineDoc entity_name context now)
  let entry : QEntry := ⟨entity_name, path, now, "pending"⟩
  ({ st with
      quarantineDir := qd
      tracking := { st.tracking with
        quarantine := st.tracking.quarantine ++ [entry] } },
   ⟨entity_name, path, "quarantined"⟩)

/-- The dictionary `validate_entity` returns on failure
(`{"error": "Entity not in quarantine"}` — the spec's `NotFound`). -/
structure ValidateError where
  error : String
deriving Repr, DecidableEq

/-- The validated record content `validate_entity` writes: the
quarantine record with its status marker rewritten and the validation
metadata appended. -/
def validatedDoc (content : String) (target_collection : Option String)
    (keywords : List String) (now : Int) : String :=
  strReplace content "(IN QUARANTINE)" "(VALIDATED)"
    ++ "\n## Validation Details\n"
    ++ "- Validated: " ++ formatISO now ++ "\n"
    ++ "- Target Collection: " ++ target_collection.getD "mem_steven" ++ "\n"
    ++ (if keywords.isEmpty then ""
        else "- Keywords: " ++ joinWith ", " keywords ++ "\n")

/-- `MemoryBrain.validate_entity`: on a missing quarantine file it
returns the error dictionary and changes nothing; otherwise it rewrites
the record as validated, moves the file to the entities directory,
removes the first matching ledger quarantine record and appends a
validated record. The Python function has no `return` on the success
path (the dictionary that looks like its success result sits after the
unconditional `return` of `prune_old_files` and is dead code), so it
returns `None` there: `none` models that, `some` the error dictionary.
The optional Qdrant collection creation touches no modelled state. -/
def validate_entity (st : BrainState) (entity_name : String)
    (target_collection : Option String) (keywords : List String) (now : Int) :
    BrainState × Option ValidateError :=
  let slug := entitySlug entity_name
  match fsGet st.quarantineDir slug with
  | none => (st, some ⟨"Entity not in quarantine"⟩)
  | some content =>
    let ed := fsWrite st.entitiesDir slug (validatedDoc content target_collection keywords now)
    let qd := fsErase st.quarantineDir slug
    let q' := st.tracking.quarantine.eraseP (fun e => e.name == entity_name)
    let v' := st.tracking.validated_entities ++
      [⟨entity_name, MEMORY_DIR ++ "/entities/" ++ slug ++ ".md",
        target_collection.getD "mem_steven", now⟩]
    ({ st with
        entitiesDir := ed
        quarantineDir := qd
        tracking := { st.tracking with
          quarantine := q', validated_entities := v' } },
     none)

/-! ### Pruning -/

/-- One pass of the `prune_old_files` loop over the daily directory:
returns (files left in place, files moved to the archive, pruned count,
kept count). Weekly-summary stems are skipped; stems that do not parse
as a date raise inside the `try` and are kept and counted. -/
def pruneFiles (cutoff : Int) : Fs → Fs × Fs × Nat × Nat
  | [] => ([], [], 0, 0)
  | (nm, content) :: rest =>
    let r := pruneFiles cutoff rest
    if strStartsWith nm "Week_" then ((nm, content) :: r.1, r.2.1, r.2.2.1, r.2.2.2)
    else
      match parseDate nm with
      | some d =>
        if (d * 86400 : Int) < cutoff then
          (r.1, (nm, content) :: r.2.1, r.2.2.1 + 1, r.2.2.2)
        else ((nm, content) :: r.1, r.2.1, r.2.2.1, r.2.2.2 + 1)
      | none => ((nm, content) :: r.1, r.2.1, r.2.2.1, r.2.2.2 + 1)

/-- The condition under which `prune_old_files` relocates a file: not a
weekly-summary stem, stem parses as a date, and that date's midnight
lies strictly before the cutoff. -/
def pruneEligible (cutoff : Int) (nm : String) : Bool :=
  !strStartsWith nm "Week_"
    && (match parseDate nm with
        | some d => decide ((d * 86400 : Int) < cutoff)
        | none => false)

/-- `MemoryBrain.prune_old_files`: relocates daily files older than
`now - retention_days` into the archive directory; returns the
`{"pruned": _, "kept": _}` counts. -/
def prune_old_files (st : BrainState) (retention_days : Nat) (now : Int) :
    BrainState × Nat × Nat :=
  let cutoff : Int := now - retention_days * 86400
  let r := pruneFiles cutoff st.memFiles
  ({ st with
      memFiles := r.1
      archiveDir := r.2.1.foldl (fun a p => fsWrite a p.1 p.2) st.archiveDir },
   r.2.2.1, r.2.2.2)

/-! ### Weekly consolidation -/

/-- Keyword test of the `decisions` branch of `consolidate_to_weekly`. -/
def isDecisionText (t : String) : Bool :=
  strContains (lowerStr t) "[decision]" || strContains (lowerStr t) "decided"

/-- Keyword test of the `preferences` branch. -/
def isPreferenceText (t : String) : Bool :=
  strContains (lowerStr t) "prefer" || strContains (lowerStr t) "like"

/-- Keyword test of the `actions` branch. -/
def isActionText (t : String) : Bool :=
  strContains (lowerStr t) "[action]" || strContains (lowerStr t) "make sure"

/-- The three keyword buckets of a weekly summary. -/
structure Buckets where
  decisions : List String
  preferences : List String
  actions : List String
deriving Repr, DecidableEq

/-- The `if`/`elif`/`elif` classification loop of
`consolidate_to_weekly`, preserving first-seen order per bucket. -/
def classifyEntries : List String → Buckets
  | [] => ⟨[], [], []⟩
  | t :: ts =>
    let b := classifyEntries ts
    if isDecisionText t then ⟨t :: b.decisions, b.preferences, b.actions⟩
    else if isPreferenceText t then ⟨b.decisions, t :: b.preferences, b.actions⟩
    else if isActionText t then ⟨b.decisions, b.preferences, t :: b.actions⟩
    else b

/-- The daily-file texts of the window `[week_start, week_start+6]`
present in the daily directory, in date order. -/
def weekEntries (memFiles : Fs) (week_start : Int) : List String :=
  (List.range 7).filterMap fun i => fsGet memFiles (formatDate (week_start + i))

/-- One rendered bucket section: empty when the bucket is, otherwise
the title followed by the first 5 items, each stripped. -/
def bucketSection (title : String) (items : List String) : String :=
  if items.isEmpty then ""
  else title ++ joinWith "" ((items.take 5).map (fun d => "- " ++ strTrim d ++ "\n")) ++ "\n"

/-- The full weekly-summary file content. -/
def weeklyContent (week_start now : Int) (entries : List String) : String :=
  let b := classifyEntries entries
  "# Weekly Memory Summary - " ++ formatDate week_start ++ " to "
      ++ formatDate (week_start + 6) ++ "\n\n"
    ++ "*Generated: " ++ formatDateHM now ++ "*\n\n"
    ++ "## Consolidated from " ++ toString entries.length ++ " daily entries\n\n"
    ++ bucketSection "## Decisions\n" b.decisions
    ++ bucketSection "## Preferences\n" b.preferences
    ++ bucketSection "## Action Items\n" b.actions
    ++ "---\n*This is a weekly distilled summary. See daily files for full detail.*\n"

/-- The dictionary `consolidate_to_weekly` returns when it consolidated. -/
structure ConsolidateResult where
  file : String
  week : String
  entries : Nat
deriving Repr, DecidableEq

/-- `MemoryBrain.consolidate_to_weekly` for an explicit `week_start`
(an epoch day): collects the window's daily files, returns `none`
untouched when there are none, otherwise writes
`distilled/Week_<week_start>.md` and registers the week in the ledger. -/
def consolidate_to_weekly (st : BrainState) (week_start : Int) (now : Int) :
    BrainState × Option ConsolidateResult :=
  let ws := formatDate week_start
  let week_label := ws ++ "_to_" ++ formatDate (week_start + 6)
  let wkKey := "Week_" ++ ws
  let path := DISTILLED_DIR ++ "/" ++ wkKey ++ ".md"
  let entries := weekEntries st.memFiles week_start
  if entries.isEmpty then (st, none)
  else
    let dist := fsWrite st.distilled wkKey (weeklyContent week_start now entries)
    let wsums := fsWrite st.tracking.weekly_summaries week_label
      ⟨path, entries.length, now⟩
    ({ st with
        distilled := dist
        tracking := { st.tracking with weekly_summaries := wsums } },
     some ⟨path, week_label, entries.length⟩)

/-! ### Keyword queries over the tiers -/

/-- One hit of `query_daily_memory`. -/
structure DailyHit where
  file : String
  date : String
  content_snippet : String
deriving Repr, DecidableEq

/-- `MemoryBrain.query_daily_memory`: keyword scan of daily files whose
stem parses as a date within the last `days` days. -/
def query_daily_memory (memFiles : Fs) (q : String) (days : Nat) (now : Int) :
    List DailyHit :=
  memFiles.filterMap fun p =>
    match parseDate p.1 with
    | none => none
    | some d =>
      if (d * 86400 : Int) ≥ now - (days : Int) * 86400 then
        if strContains (lowerStr p.2) (lowerStr q) then
          some ⟨MEMORY_DIR ++ "/" ++ p.1 ++ ".md", p.1, pyTake 500 p.2⟩
        else none
      else none

/-- One hit of `query_weekly_memory`. -/
structure WeeklyHit where
  file : String
  week : String
  snippet : String
deriving Repr, DecidableEq

/-- `MemoryBrain.query_weekly_memory`: keyword scan of the
`Week_*.md` files of the distilled directory. -/
def query_weekly_memory (distilled : Fs) (q : String) : List WeeklyHit :=
  distilled.filterMap fun p =>
    if strStartsWith p.1 "Week_" then
      if strContains (lowerStr p.2) (lowerStr q) then
        some ⟨DISTILLED_DIR ++ "/" ++ p.1 ++ ".md", p.1, pyTake 300 p.2⟩
      else none
    else none

/-! ### Retrieval router with lexical fallback -/

/-- One scored point returned by the vector backend. -/
structure BackendPoint where
  content : String
  score : Rat
deriving Repr, DecidableEq

/-- The external embedding/vector backend: `embed` models
`SentenceTransformer.encode`, `queryPoints` models
`QdrantClient.query_points`; `none` models a raised exception. -/
structure Backend where
  embed : String → Option (List Rat)
  queryPoints : String → List Rat → Nat → Option (List BackendPoint)

/-- One element of a router result's `vectors` list. Backend hits carry
no `"file"` key (`file = none`); lexical-fallback hits carry one. -/
structure VecHit where
  collection : String
  file : Option String
  content : String
  score : Rat
deriving Repr, DecidableEq

/-- `MemoryBrain._vector_search_fallback`: embeds the query (an embed
exception propagates as `none`), then queries every collection, skipping
collections whose query raises (`except: continue`). -/
def vector_search_fallback (backend : Backend) (q : String) :
    Option (List VecHit) :=
  match backend.embed q with
  | none => none
  | some vec =>
    some (COLLECTIONS.foldl
      (fun acc coll =>
        match backend.queryPoints coll vec 5 with
        | none => acc
        | some pts =>
          acc ++ pts.map (fun pt => ⟨coll, none, pyTake 200 pt.content, pt.score⟩))
      [])

/-- The stdout of `grep -i -n <query> <file>` on a literal query: one
"lineno:line" line per line of the file containing the query
case-insensitively. -/
def grepOutput (q content : String) : String :=
  joinWith ""
    ((strSplit content '\n').enum.filterMap fun p =>
      if containsCI p.2 q then some (toString (p.1 + 1) ++ ":" ++ p.2 ++ "\n")
      else none)

/-- Python `line.split(":", 1)[1]`: everything after the first colon. -/
def afterColon (s : String) : String :=
  String.mk ((s.toList.dropWhile (fun c => c ≠ ':')).drop 1)

/-- The hits `_file_based_search` collects from one daily file: the
first 3 lines of the grep output, each stripped, truncated to 200
characters and given the fixed score 1/2. -/
def fileSearchHits (q nm content : String) : List VecHit :=
  ((strSplit (grepOutput q content) '\n').take 3).filterMap fun line =>
    if (strTrim line).isEmpty then none
    else
      some ⟨"file", some (MEMORY_DIR ++ "/" ++ nm ++ ".md"),
        pyTake 200 (if strContains line ":" then strTrim (afterColon line)
          else strTrim line),
        (1 : Rat) / 2⟩

/-- `MemoryBrain._file_based_search`: grep-based scan over the daily
directory, skipping weekly-summary stems. -/
def file_based_search (q : String) : Fs → List VecHit
  | [] => []
  | (nm, content) :: rest =>
    (if strStartsWith nm "Week_" then [] else fileSearchHits q nm content)
      ++ file_based_search q rest

/-- The uniform result shape of `query_with_fallback`. -/
structure RouterResult where
  source : String
  daily : List DailyHit
  weekly : List WeeklyHit
  vectors : List VecHit
deriving Repr, DecidableEq

/-- `MemoryBrain.query_with_fallback`: tries the backend path; when the
embedding call raises, serves the `vectors` portion from
`_file_based_search` and labels the result `source = "files"`. The
`try` block's daily/weekly scans are pure, so the `except` branch
recomputes the same values. -/
def query_with_fallback (st : BrainState) (backend : Backend) (q : String)
    (include_daily include_weekly : Bool) (now : Int) : RouterResult :=
  let daily := if include_daily then query_daily_memory st.memFiles q 7 now else []
  let weekly := if include_weekly then query_weekly_memory st.distilled q else []
  match vector_search_fallback backend q with
  | some vecs => ⟨"qdrant", daily, weekly, vecs⟩
  | none => ⟨"files", daily, weekly, file_based_search q st.memFiles⟩

/-! ### Conflict detection -/

def CONFLICT_INDICATORS : List (List String) :=
  [["use", "prefer", "instead"],
   ["instead of", "not", "rather than"],
   ["actually", "really", "actually"],
   ["change", "update", "switch"]]

/-- One conflict record of `detect_conflicts`. -/
structure Conflict where
  memory_1 : String
  memory_2 : String
  collection_1 : String
  collection_2 : String
  score_1 : Rat
  score_2 : Rat
  conflict_type : String
  resolution : String
deriving Repr, DecidableEq

/-- The per-pair body of the `detect_conflicts` double loop: a conflict
record when some indicator group matches both lowered texts and the
texts differ. -/
def conflictOf (r1 r2 : VecHit) : Option Conflict :=
  let c1 := lowerStr r1.content
  let c2 := lowerStr r2.content
  if (CONFLICT_INDICATORS.any fun pat =>
        pat.any (fun p => strContains c1 p) && pat.any (fun p => strContains c2 p))
      && c1 ≠ c2 then
    some ⟨pyTake 200 r1.content, pyTake 200 r2.content, r1.collection,
      r2.collection, r1.score, r2.score, "contradiction", "ASK_USER"⟩
  else none

/-- All ordered-pair conflicts (`for i, r1 in enumerate(vectors): for r2
in vectors[i+1:]`). -/
def pairConflicts : List VecHit → List Conflict
  | [] => []
  | r1 :: rest => rest.filterMap (conflictOf r1) ++ pairConflicts rest

/-- `MemoryBrain.detect_conflicts`, taking the `vectors` portion of the
`self.query(query)` result as input (the retrieval itself is the
backend's): `none` when fewer than two memories were retrieved or no
pair conflicts. -/
def detect_conflicts (vectors : List VecHit) : Option (List Conflict) :=
  if vectors.length < 2 then none
  else
    let cs := pairConflicts vectors
    if cs.isEmpty then none else some cs

/-! ### Saving ingested entries (src/scripts/ingest_sessions.py) -/

/-- One rendered entry block of `save_to_daily_memory`. -/
def entryBlock (entry : MemEntry) : String :=
  let preview := pyTake 500 entry.content
    ++ (if entry.content.length > 500 then "..." else "")
  "**" ++ upperStr entry.role ++ "**: " ++ preview ++ "\n\n"

/-- The full block `save_to_daily_memory` appends for one batch. -/
def sessionBlock (entries : List MemEntry) (session_date : Int) : String :=
  "\n## " ++ formatHM session_date ++ " - SESSION INGEST\n"
    ++ "*Ingested from " ++ toString entries.length ++ " messages*\n\n"
    ++ joinWith "" ((entries.take 20).map entryBlock)
    ++ "---\n"

/-- `save_to_daily_memory entries session_date`: appends the batch to
the daily file of `session_date`'s calendar date (creating it if
absent) and returns `len(entries)`. -/
def save_to_daily_memory (memFiles : Fs) (entries : List MemEntry)
    (session_date : Int) : Fs × Nat :=
  if entries.isEmpty then (memFiles, 0)
  else
    let today := formatDate (dayOf session_date)
    let old := (fsGet memFiles today).getD ""
    (fsWrite memFiles today (old ++ sessionBlock entries session_date),
     entries.length)

/-- The per-session-file body of `ingest_sessions`: parse, filter,
and save with `messages[0]["timestamp"]` as the session date. -/
def ingestSessionMessages (memFiles : Fs) (raw : List Msg) : Fs × Nat :=
  let messages := parse_session_file raw
  let entries := extract_memory_entries messages
  match messages with
  | [] => (memFiles, 0)
  | m :: _ =>
    if entries.isEmpty then (memFiles, 0)
    else save_to_daily_memory memFiles entries m.timestamp

/-- A brain state with empty directories and an empty ledger (the state
of a fresh installation). -/
def emptyBrain : BrainState := ⟨[], [], [], [], [], ⟨[], [], []⟩⟩

/-- A concrete brain state holding one daily file, used to exercise the
consolidation theorems. -/
def brainC5 : BrainState :=
  ⟨[("2026-01-05", "we decided to prefer X")], [], [], [], [], ⟨[], [], []⟩⟩

/-- A backend whose every call raises. -/
def failBackend : Backend := ⟨fun _ => none, fun _ _ _ => none⟩

/-- A concrete brain state with one daily file of several matching
lines and one weekly summary, used to exercise the fallback router. -/
def brainC1 : BrainState :=
  ⟨[("2026-01-05", "tea one\ntwo plain lines\ntea three\ntea four\ntea five")],
   [("Week_2026-01-05", "weekly tea notes")], [], [], [], ⟨[], [], []⟩⟩

/-- A concrete brain state with daily files dated today, 3 days ago and
10 days ago relative to `nowC8`, plus one file whose name is not a
date. -/
def brainC8 : BrainState :=
  ⟨[("2026-01-10", "today note"), ("2026-01-07", "recent note"),
    ("2025-12-31", "old note"), ("notes", "misc")], [], [], [], [], ⟨[], [], []⟩⟩

/-- A concrete clock: 2026-01-10, 01:00. -/
def nowC8 : Int := daysFromCivil 2026 1 10 * 86400 + 3600

/-! ## Helper lemmas -/

theorem conflictOf_resolution {r1 r2 : VecHit} {c : Conflict}
    (h : conflictOf r1 r2 = some c) : c.resolution = "ASK_USER" := by
  simp only [conflictOf] at h
  split at h
  · cases h
    rfl
  · cases h

theorem pairConflicts_resolution :
    ∀ (l : List VecHit), ∀ c ∈ pairConflicts l, c.resolution = "ASK_USER" := by
  intro l
  induction l with
  | nil => intro c hc; simp [pairConflicts] at hc
  | cons r rest ih =>
    intro c hc
    simp only [pairConflicts, List.mem_append, List.mem_filterMap] at hc
    rcases hc with ⟨r2, _, h⟩ | h
    · exact conflictOf_resolution h
    · exact ih c h

theorem sigPipeline_eq (m : Msg) :
    extract_memory_entries (parse_session_file [m])
      = (if parseKeeps m.role m.content
            && !(noiseMarkers.any fun x => strContains m.content x)
            && !(decide (m.content.length < 50))
          then [⟨m.content, "conversation", m.role⟩] else []) := by
  simp only [parse_session_file, List.filter_cons, List.filter_nil]
  cases hp : parseKeeps m.role m.content
  · simp [extract_memory_entries]
  · simp only [if_true, Bool.true_and]
    cases hn : noiseMarkers.any fun x => strContains m.content x
    · by_cases hl : m.content.length < 50
      · simp [extract_memory_entries, hn, hl, -List.any_eq_true]
      · simp [extract_memory_entries, hn, hl, -List.any_eq_true]
    · simp [extract_memory_entries, hn, -List.any_eq_true]

theorem sigKeeps_eq (m : Msg) :
    significanceKeeps m
      = (parseKeeps m.role m.content
          && !(noiseMarkers.any fun x => strContains m.content x)
          && !(decide (m.content.length < 50))) := by
  unfold significanceKeeps
  rw [sigPipeline_eq]
  split <;> simp_all

/-! ## Claim theorems -/

/-- Claim C4: the Significance Filter retains a role-tagged text turn
iff the role is "user" or "assistant", the content contains none of the
fixed noise markers, and the content length is at least 50 characters;
a retained turn is kept with its role and original text untransformed
(category "conversation"). -/
theorem significance_filter_characterization (m : Msg) :
    (significanceKeeps m = true ↔
      ((m.role = "user" ∨ m.role = "assistant")
        ∧ (∀ x ∈ noiseMarkers, strContains m.content x = false)
        ∧ 50 ≤ m.content.length))
    ∧ extract_memory_entries (parse_session_file [m])
      = (if significanceKeeps m then [⟨m.content, "conversation", m.role⟩] else []) := by
  constructor
  · rw [sigKeeps_eq]
    simp only [parseKeeps, Bool.and_eq_true, Bool.not_eq_true', Bool.or_eq_true,
      beq_iff_eq, List.any_eq_false, decide_eq_false_iff_not, Nat.not_lt,
      beq_eq_false_iff_ne, ne_eq]
    constructor
    · rintro ⟨⟨⟨-, hrole⟩, hnoise⟩, hlen⟩
      exact ⟨hrole, fun x hx => by simpa using hnoise x hx, hlen⟩
    · rintro ⟨hrole, hnoise, hlen⟩
      refine ⟨⟨⟨?_, hrole⟩, fun x hx => by simpa using hnoise x hx⟩, hlen⟩
      intro hcontr
      rw [hcontr] at hlen
      simp at hlen
  · rw [sigPipeline_eq, sigKeeps_eq]

/-- Claim C9: on the two textually distinct conda/venv memories (which
both match the {"use","prefer","instead"} indicator group), the
Conflict Detector reports exactly one conflict record, with
conflict_type "contradiction" and resolution "ASK_USER"; and no
conflict it ever reports carries any resolution other than "ASK_USER"
(nothing is auto-resolved). -/
theorem conflict_detector_conda_venv :
    detect_conflicts
        [⟨"mem_projects", none, "use conda instead of venv for data science", 1⟩,
         ⟨"mem_steven", none, "use venv instead of conda for apps", 2⟩]
      = some [⟨"use conda instead of venv for data science",
               "use venv instead of conda for apps",
               "mem_projects", "mem_steven", 1, 2,
               "contradiction", "ASK_USER"⟩]
    ∧ ∀ vecs : List VecHit,
        ((detect_conflicts vecs).getD []).all (fun c => c.resolution == "ASK_USER") = true := by
  constructor
  · decide
  · intro vecs
    unfold detect_conflicts
    split
    · simp
    · cases hc : (pairConflicts vecs).isEmpty
      · simp only [hc, Bool.false_eq_true, if_false, Option.getD_some, List.all_eq_true]
        intro c hmem
        have := pairConflicts_resolution vecs c hmem
        simp [this]
      · simp [hc]

theorem fsGet_fsWrite_self {α : Type} (fs : List (String × α)) (k : String) (v : α) :
    fsGet (fsWrite fs k v) k = some v := by
  induction fs with
  | nil => simp [fsWrite, fsGet]
  | cons p rest ih =>
    by_cases h : p.1 = k
    · simp [fsWrite, fsGet, h]
    · simp [fsWrite, fsGet, h, ih]

theorem fsErase_fsWrite_of_not_mem {α : Type} (fs : List (String × α))
    (k : String) (v : α) (h : fsGet fs k = none) :
    fsErase (fsWrite fs k v) k = fs := by
  induction fs with
  | nil => simp [fsWrite, fsErase]
  | cons p rest ih =>
    by_cases hk : p.1 = k
    · simp [fsGet, hk] at h
    · simp only [fsGet, hk, if_neg hk] at h
      simp [fsWrite, fsErase, hk, ih h]

theorem fsWrite_fsWrite_same {α : Type} (fs : List (String × α)) (k : String) (v : α) :
    fsWrite (fsWrite fs k v) k v = fsWrite fs k v := by
  induction fs with
  | nil => simp [fsWrite]
  | cons p rest ih =>
    by_cases h : p.1 = k
    · simp [fsWrite, h]
    · simp [fsWrite, h, ih]

theorem eraseP_append_singleton {α : Type} (l : List α) (x : α) (p : α → Bool)
    (h : ∀ e ∈ l, p e = false) (hx : p x = true) :
    (l ++ [x]).eraseP p = l := by
  induction l with
  | nil => simp [List.eraseP, hx]
  | cons a t ih =>
    have ha := h a (by simp)
    simp only [List.cons_append, List.eraseP_cons, ha, cond_false]
    rw [ih (fun e he => h e (by simp [he]))]

theorem validate_entity_found (s : BrainState) (name : String)
    (tc : Option String) (kw : List String) (t : Int) (c : String)
    (h : fsGet s.quarantineDir (entitySlug name) = some c) :
    validate_entity s name tc kw t
      = ({ s with
            entitiesDir := fsWrite s.entitiesDir (entitySlug name) (validatedDoc c tc kw t)
            quarantineDir := fsErase s.quarantineDir (entitySlug name)
            tracking := { s.tracking with
              quarantine := s.tracking.quarantine.eraseP (fun e => e.name == name)
              validated_entities := s.tracking.validated_entities
                ++ [⟨name, MEMORY_DIR ++ "/entities/" ++ entitySlug name ++ ".md",
                     tc.getD "mem_steven", t⟩] } },
         none) := by
  simp only [validate_entity, h]

theorem validate_entity_missing (s : BrainState) (name : String)
    (tc : Option String) (kw : List String) (t : Int)
    (h : fsGet s.quarantineDir (entitySlug name) = none) :
    validate_entity s name tc kw t = (s, some ⟨"Entity not in quarantine"⟩) := by
  simp only [validate_entity, h]

/-- Claim C2: quarantining a fresh name and then validating it removes
the name from the pending quarantine set (its file and its ledger
record) and appends it to the validated list exactly once; a second
`validate` of the same name returns the `NotFound` error dictionary and
leaves the state unchanged. -/
theorem quarantine_then_validate (st : BrainState) (name ctx : String)
    (tc : Option String) (kw : List String) (t1 t2 t3 : Int)
    (hfile : fsGet st.quarantineDir (entitySlug name) = none)
    (hledger : ∀ e ∈ st.tracking.quarantine, e.name ≠ name) :
    let st1 := (quarantine_entity st name ctx t1).1
    let r := validate_entity st1 name tc kw t2
    r.2 = none
    ∧ fsGet r.1.quarantineDir (entitySlug name) = none
    ∧ r.1.tracking.quarantine = st.tracking.quarantine
    ∧ r.1.tracking.validated_entities
        = st.tracking.validated_entities
          ++ [⟨name, MEMORY_DIR ++ "/entities/" ++ entitySlug name ++ ".md",
               tc.getD "mem_steven", t2⟩]
    ∧ validate_entity r.1 name tc kw t3 = (r.1, some ⟨"Entity not in quarantine"⟩) := by
  intro st1 r
  have hq : fsGet st1.quarantineDir (entitySlug name)
      = some (quarantineDoc name ctx t1) :=
    fsGet_fsWrite_self st.quarantineDir (entitySlug name) (quarantineDoc name ctx t1)
  have hr : r = _ := validate_entity_found st1 name tc kw t2 (quarantineDoc name ctx t1) hq
  have h2 : fsGet r.1.quarantineDir (entitySlug name) = none := by
    rw [hr]
    show fsGet (fsErase st1.quarantineDir (entitySlug name)) (entitySlug name) = none
    show fsGet (fsErase (fsWrite st.quarantineDir (entitySlug name)
      (quarantineDoc name ctx t1)) (entitySlug name)) (entitySlug name) = none
    rw [fsErase_fsWrite_of_not_mem st.quarantineDir _ _ hfile]
    exact hfile
  refine ⟨by rw [hr], h2, ?_, ?_, validate_entity_missing r.1 name tc kw t3 h2⟩
  · rw [hr]
    show (st.tracking.quarantine
        ++ [(⟨name, QUARANTINE_DIR ++ "/" ++ entitySlug name ++ ".md", t1, "pending"⟩ : QEntry)]).eraseP
        (fun e => e.name == name) = st.tracking.quarantine
    exact eraseP_append_singleton _ _ _
      (fun e he => beq_eq_false_iff_ne.mpr (hledger e he)) (by simp)
  · rw [hr]
    rfl

/-- Witness for C2 at a concrete fresh state and name. -/
theorem quarantine_then_validate_witness :
    (let st1 := (quarantine_entity emptyBrain "Jane Doe" "met at the wedding" 0).1
     let r := validate_entity st1 "Jane Doe" none [] 100
     r.2 = none
     ∧ fsGet r.1.quarantineDir (entitySlug "Jane Doe") = none
     ∧ r.1.tracking.quarantine = emptyBrain.tracking.quarantine
     ∧ r.1.tracking.validated_entities
         = emptyBrain.tracking.validated_entities
           ++ [⟨"Jane Doe", MEMORY_DIR ++ "/entities/" ++ entitySlug "Jane Doe" ++ ".md",
                (none : Option String).getD "mem_steven", 100⟩]
     ∧ validate_entity r.1 "Jane Doe" none [] 200
         = (r.1, some ⟨"Entity not in quarantine"⟩)) :=
  quarantine_then_validate emptyBrain "Jane Doe" "met at the wedding"
    none [] 0 100 200 rfl (by simp [emptyBrain])

set_option maxRecDepth 40000 in
/-- Counterexample to claim C3: re-quarantining an already-pending name
(same name, context and clock) is not a no-op — it appends a second
pending record to the ledger's quarantine list, so the state after the
second `quarantine_entity` call differs from the state after the first. -/
theorem quarantine_not_idempotent :
    ((quarantine_entity (quarantine_entity emptyBrain "Jane Doe" "ctx" 0).1
        "Jane Doe" "ctx" 0).1.tracking.quarantine.length = 2
      ∧ (quarantine_entity emptyBrain "Jane Doe" "ctx" 0).1.tracking.quarantine.length = 1)
    ∧ (quarantine_entity (quarantine_entity emptyBrain "Jane Doe" "ctx" 0).1
        "Jane Doe" "ctx" 0).1
      ≠ (quarantine_entity emptyBrain "Jane Doe" "ctx" 0).1 := by
  refine ⟨⟨rfl, rfl⟩, ?_⟩
  decide

/-- Claim C3 amended: `quarantine_entity` on an already-pending name
rewrites the quarantine file (idempotently, for a fixed context and
clock) and returns the same result dictionary, but it unconditionally
appends one more pending record to the ledger's quarantine list, whose
length therefore grows by one on every call. -/
theorem quarantine_repeat (st : BrainState) (name ctx : String) (t : Int) :
    let r1 := quarantine_entity st name ctx t
    let r2 := quarantine_entity r1.1 name ctx t
    r2.1.quarantineDir = r1.1.quarantineDir
    ∧ r2.2 = r1.2
    ∧ r2.1.tracking.quarantine
        = r1.1.tracking.quarantine
          ++ [⟨name, QUARANTINE_DIR ++ "/" ++ entitySlug name ++ ".md", t, "pending"⟩]
    ∧ r2.1.tracking.quarantine.length = r1.1.tracking.quarantine.length + 1 := by
  intro r1 r2
  refine ⟨?_, rfl, rfl, ?_⟩
  · show fsWrite (fsWrite st.quarantineDir (entitySlug name) (quarantineDoc name ctx t))
        (entitySlug name) (quarantineDoc name ctx t)
      = fsWrite st.quarantineDir (entitySlug name) (quarantineDoc name ctx t)
    exact fsWrite_fsWrite_same _ _ _
  · show (r1.1.tracking.quarantine
        ++ [(⟨name, QUARANTINE_DIR ++ "/" ++ entitySlug name ++ ".md", t, "pending"⟩ : QEntry)]).length
      = r1.1.tracking.quarantine.length + 1
    simp

/-- Claim C10: `validate_entity` returns either `None` (modelled
`none`) or the not-in-quarantine error dictionary — the success-result
dictionary in the source sits after the unconditional `return` of
`prune_old_files` and is unreachable. Whenever the name has a pending
quarantine file, the full transition is still performed (record
rewritten into the entities directory, quarantine file removed,
ledger updated) and the return value is `None`. -/
theorem validate_entity_returns (st : BrainState) (name : String)
    (tc : Option String) (kw : List String) (t : Int) :
    ((validate_entity st name tc kw t).2 = none
      ∨ (validate_entity st name tc kw t).2 = some ⟨"Entity not in quarantine"⟩)
    ∧ (∀ c, fsGet st.quarantineDir (entitySlug name) = some c →
        (validate_entity st name tc kw t).2 = none
        ∧ fsGet (validate_entity st name tc kw t).1.entitiesDir (entitySlug name)
            = some (validatedDoc c tc kw t)
        ∧ (validate_entity st name tc kw t).1.tracking.validated_entities
            = st.tracking.validated_entities
              ++ [⟨name, MEMORY_DIR ++ "/entities/" ++ entitySlug name ++ ".md",
                   tc.getD "mem_steven", t⟩]) := by
  constructor
  · cases hq : fsGet st.quarantineDir (entitySlug name) with
    | none => exact Or.inr (by rw [validate_entity_missing st name tc kw t hq])
    | some c => exact Or.inl (by rw [validate_entity_found st name tc kw t c hq])
  · intro c hq
    rw [validate_entity_found st name tc kw t c hq]
    exact ⟨rfl, fsGet_fsWrite_self _ _ _, rfl⟩

/-- Witness for C10 at a state holding one pending record. -/
theorem validate_entity_returns_witness :
    (((validate_entity (quarantine_entity emptyBrain "Jane Doe" "ctx" 0).1
          "Jane Doe" none [] 100).2 = none
        ∨ (validate_entity (quarantine_entity emptyBrain "Jane Doe" "ctx" 0).1
            "Jane Doe" none [] 100).2 = some ⟨"Entity not in quarantine"⟩)
      ∧ ((validate_entity (quarantine_entity emptyBrain "Jane Doe" "ctx" 0).1
            "Jane Doe" none [] 100).2 = none
          ∧ fsGet (validate_entity (quarantine_entity emptyBrain "Jane Doe" "ctx" 0).1
              "Jane Doe" none [] 100).1.entitiesDir (entitySlug "Jane Doe")
            = some (validatedDoc (quarantineDoc "Jane Doe" "ctx" 0) none [] 100)
          ∧ (validate_entity (quarantine_entity emptyBrain "Jane Doe" "ctx" 0).1
              "Jane Doe" none [] 100).1.tracking.validated_entities
            = (quarantine_entity emptyBrain "Jane Doe" "ctx" 0).1.tracking.validated_entities
              ++ [⟨"Jane Doe", MEMORY_DIR ++ "/entities/" ++ entitySlug "Jane Doe" ++ ".md",
                   (none : Option String).getD "mem_steven", 100⟩])) :=
  ⟨(validate_entity_returns (quarantine_entity emptyBrain "Jane Doe" "ctx" 0).1
      "Jane Doe" none [] 100).1,
   (validate_entity_returns (quarantine_entity emptyBrain "Jane Doe" "ctx" 0).1
      "Jane Doe" none [] 100).2 (quarantineDoc "Jane Doe" "ctx" 0)
     (fsGet_fsWrite_self emptyBrain.quarantineDir (entitySlug "Jane Doe")
       (quarantineDoc "Jane Doe" "ctx" 0))⟩

theorem fsGet_eq_none_iff {α : Type} (fs : List (String × α)) (k : String) :
    fsGet fs k = none ↔ k ∉ fsKeys fs := by
  induction fs with
  | nil => simp [fsGet, fsKeys]
  | cons p rest ih =>
    by_cases h : p.1 = k
    · simp [fsGet, fsKeys, h]
    · simp [fsGet, fsKeys, h, ih, Ne.symm h]

theorem fsKeys_fsWrite {α : Type} (fs : List (String × α)) (k : String) (v : α) :
    fsKeys (fsWrite fs k v)
      = (if k ∈ fsKeys fs then fsKeys fs else fsKeys fs ++ [k]) := by
  induction fs with
  | nil => simp [fsWrite, fsKeys]
  | cons p rest ih =>
    by_cases h : p.1 = k
    · simp [fsWrite, fsKeys, h]
    · simp only [fsWrite, if_neg h, fsKeys, List.map_cons]
      have ih' : List.map Prod.fst (fsWrite rest k v)
          = if k ∈ List.map Prod.fst rest then List.map Prod.fst rest
            else List.map Prod.fst rest ++ [k] := ih
      rw [ih']
      by_cases hm : k ∈ List.map Prod.fst rest
      · simp [hm, Ne.symm h]
      · simp [hm, Ne.symm h]

theorem nodup_fsKeys_fsWrite {α : Type} (fs : List (String × α)) (k : String) (v : α)
    (h : (fsKeys fs).Nodup) : (fsKeys (fsWrite fs k v)).Nodup := by
  rw [fsKeys_fsWrite]
  by_cases hm : k ∈ fsKeys fs
  · simpa [hm] using h
  · rw [if_neg hm]
    simp [List.nodup_append, h, hm]

theorem filter_key_fsWrite_length {α : Type} (fs : List (String × α)) (k : String) (v : α)
    (h : (fsKeys fs).Nodup) :
    ((fsWrite fs k v).filter (fun p => p.1 == k)).length = 1 := by
  induction fs with
  | nil => simp [fsWrite]
  | cons p rest ih =>
    have hn : p.1 ∉ fsKeys rest := by
      simpa [fsKeys] using (List.nodup_cons.mp h).1
    have ht : (fsKeys rest).Nodup := by
      simpa [fsKeys] using (List.nodup_cons.mp h).2
    by_cases hk : p.1 = k
    · subst hk
      have hfe : rest.filter (fun p' => p'.1 == p.1) = [] := by
        rw [List.filter_eq_nil_iff]
        intro q hq hq2
        refine hn ?_
        have hq1 : q.1 = p.1 := by simpa using hq2
        rw [← hq1]
        exact List.mem_map_of_mem Prod.fst hq
      simp [fsWrite, List.filter_cons, hfe]
    · simp only [fsWrite, if_neg hk, List.filter_cons]
      have : (p.1 == k) = false := by simpa using hk
      simp [this, ih ht]

theorem consolidate_empty (st : BrainState) (ws now : Int)
    (h : weekEntries st.memFiles ws = []) :
    consolidate_to_weekly st ws now = (st, none) := by
  simp [consolidate_to_weekly, h]

theorem consolidate_nonempty (st : BrainState) (ws now : Int)
    (h : weekEntries st.memFiles ws ≠ []) :
    consolidate_to_weekly st ws now
      = ({ st with
            distilled := fsWrite st.distilled ("Week_" ++ formatDate ws)
              (weeklyContent ws now (weekEntries st.memFiles ws))
            tracking := { st.tracking with
              weekly_summaries := fsWrite st.tracking.weekly_summaries
                (formatDate ws ++ "_to_" ++ formatDate (ws + 6))
                ⟨DISTILLED_DIR ++ "/" ++ ("Week_" ++ formatDate ws) ++ ".md",
                 (weekEntries st.memFiles ws).length, now⟩ } },
         some ⟨DISTILLED_DIR ++ "/" ++ ("Week_" ++ formatDate ws) ++ ".md",
               formatDate ws ++ "_to_" ++ formatDate (ws + 6),
               (weekEntries st.memFiles ws).length⟩) := by
  have hb : (weekEntries st.memFiles ws).isEmpty = false := by
    cases hw : weekEntries st.memFiles ws with
    | nil => exact absurd hw h
    | cons a t => rfl
  simp [consolidate_to_weekly, hb]

/-- Claim C5: consolidating a 7-day window with no DailyFiles is a
no-op (no WeeklySummary written, state untouched); with at least one
DailyFile it writes the weekly summary whose buckets are capped at 5
items each, and re-running the consolidation for the same `week_start`
overwrites that summary and its ledger registration in place — the
distilled directory and the ledger hold exactly one record for the
week, and their key sets do not grow. -/
theorem consolidate_weekly_props (st : BrainState) (ws now1 now2 : Int)
    (hnodupD : (fsKeys st.distilled).Nodup)
    (hnodupW : (fsKeys st.tracking.weekly_summaries).Nodup) :
    (weekEntries st.memFiles ws = [] → consolidate_to_weekly st ws now1 = (st, none))
    ∧ (weekEntries st.memFiles ws ≠ [] →
        let es := weekEntries st.memFiles ws
        let st1 := (consolidate_to_weekly st ws now1).1
        let st2 := (consolidate_to_weekly st1 ws now2).1
        fsGet st1.distilled ("Week_" ++ formatDate ws) = some (weeklyContent ws now1 es)
        ∧ ((classifyEntries es).decisions.take 5).length ≤ 5
        ∧ ((classifyEntries es).preferences.take 5).length ≤ 5
        ∧ ((classifyEntries es).actions.take 5).length ≤ 5
        ∧ fsGet st2.distilled ("Week_" ++ formatDate ws) = some (weeklyContent ws now2 es)
        ∧ (st2.distilled.filter (fun p => p.1 == "Week_" ++ formatDate ws)).length = 1
        ∧ fsKeys st2.distilled = fsKeys st1.distilled
        ∧ (st2.tracking.weekly_summaries.filter
            (fun p => p.1 == formatDate ws ++ "_to_" ++ formatDate (ws + 6))).length = 1
        ∧ fsKeys st2.tracking.weekly_summaries = fsKeys st1.tracking.weekly_summaries) := by
  refine ⟨consolidate_empty st ws now1, ?_⟩
  intro h es st1 st2
  have h1 := consolidate_nonempty st ws now1 h
  have hst1 : st1 = ({ st with
      distilled := fsWrite st.distilled ("Week_" ++ formatDate ws)
        (weeklyContent ws now1 es)
      tracking := { st.tracking with
        weekly_summaries := fsWrite st.tracking.weekly_summaries
          (formatDate ws ++ "_to_" ++ formatDate (ws + 6))
          ⟨DISTILLED_DIR ++ "/" ++ ("Week_" ++ formatDate ws) ++ ".md",
           es.length, now1⟩ } }) := congrArg Prod.fst h1
  have hmem1 : st1.memFiles = st.memFiles := by rw [hst1]
  have hes1 : weekEntries st1.memFiles ws ≠ [] := by rw [hmem1]; exact h
  have h2 := consolidate_nonempty st1 ws now2 hes1
  have hst2 : st2 = ({ st1 with
      distilled := fsWrite st1.distilled ("Week_" ++ formatDate ws)
        (weeklyContent ws now2 (weekEntries st1.memFiles ws))
      tracking := { st1.tracking with
        weekly_summaries := fsWrite st1.tracking.weekly_summaries
          (formatDate ws ++ "_to_" ++ formatDate (ws + 6))
          ⟨DISTILLED_DIR ++ "/" ++ ("Week_" ++ formatDate ws) ++ ".md",
           (weekEntries st1.memFiles ws).length, now2⟩ } }) := congrArg Prod.fst h2
  have hes : weekEntries st1.memFiles ws = es := by rw [hmem1]
  have hd1 : st1.distilled
      = fsWrite st.distilled ("Week_" ++ formatDate ws) (weeklyContent ws now1 es) := by
    rw [hst1]
  have hw1 : st1.tracking.weekly_summaries
      = fsWrite st.tracking.weekly_summaries
          (formatDate ws ++ "_to_" ++ formatDate (ws + 6))
          ⟨DISTILLED_DIR ++ "/" ++ ("Week_" ++ formatDate ws) ++ ".md",
           es.length, now1⟩ := by
    rw [hst1]
  have hd2 : st2.distilled
      = fsWrite st1.distilled ("Week_" ++ formatDate ws) (weeklyContent ws now2 es) := by
    rw [hst2, hes]
  have hw2 : st2.tracking.weekly_summaries
      = fsWrite st1.tracking.weekly_summaries
          (formatDate ws ++ "_to_" ++ formatDate (ws + 6))
          ⟨DISTILLED_DIR ++ "/" ++ ("Week_" ++ formatDate ws) ++ ".md",
           es.length, now2⟩ := by
    rw [hst2, hes]
  have hnd1 : (fsKeys st1.distilled).Nodup := by
    rw [hd1]; exact nodup_fsKeys_fsWrite _ _ _ hnodupD
  have hnw1 : (fsKeys st1.tracking.weekly_summaries).Nodup := by
    rw [hw1]; exact nodup_fsKeys_fsWrite _ _ _ hnodupW
  refine ⟨by rw [hd1]; exact fsGet_fsWrite_self _ _ _,
    List.length_take_le _ _, List.length_take_le _ _, List.length_take_le _ _,
    by rw [hd2]; exact fsGet_fsWrite_self _ _ _,
    by rw [hd2]; exact filter_key_fsWrite_length _ _ _ hnd1,
    ?_,
    by rw [hw2]; exact filter_key_fsWrite_length _ _ _ hnw1,
    ?_⟩
  · rw [hd2, fsKeys_fsWrite, if_pos]
    rw [hd1, fsKeys_fsWrite]
    by_cases hm : ("Week_" ++ formatDate ws) ∈ fsKeys st.distilled
    · simp [hm]
    · simp [hm]
  · rw [hw2, fsKeys_fsWrite, if_pos]
    rw [hw1, fsKeys_fsWrite]
    by_cases hm : (formatDate ws ++ "_to_" ++ formatDate (ws + 6))
        ∈ fsKeys st.tracking.weekly_summaries
    · simp [hm]
    · simp [hm]

/-- Witness for C5: the no-op branch on an empty store and the
written-summary branch on a one-file window. -/
theorem consolidate_weekly_props_witness :
    consolidate_to_weekly emptyBrain (daysFromCivil 2026 1 5) 0 = (emptyBrain, none)
    ∧ fsGet ((consolidate_to_weekly brainC5 (daysFromCivil 2026 1 5) 0).1).distilled
        ("Week_" ++ formatDate (daysFromCivil 2026 1 5))
      = some (weeklyContent (daysFromCivil 2026 1 5) 0
          (weekEntries brainC5.memFiles (daysFromCivil 2026 1 5))) :=
  ⟨(consolidate_weekly_props emptyBrain (daysFromCivil 2026 1 5) 0 0
      (by simp [emptyBrain, fsKeys]) (by simp [emptyBrain, fsKeys])).1 (by decide),
   ((consolidate_weekly_props brainC5 (daysFromCivil 2026 1 5) 0 86400
      (by simp [brainC5, fsKeys]) (by simp [brainC5, fsKeys])).2 (by decide)).1⟩

theorem classifyEntries_eq_filter (entries : List String) :
    (classifyEntries entries).decisions = entries.filter isDecisionText
    ∧ (classifyEntries entries).preferences
        = entries.filter (fun t => !isDecisionText t && isPreferenceText t)
    ∧ (classifyEntries entries).actions
        = entries.filter
            (fun t => !isDecisionText t && !isPreferenceText t && isActionText t) := by
  induction entries with
  | nil => exact ⟨rfl, rfl, rfl⟩
  | cons t ts ih =>
    obtain ⟨h1, h2, h3⟩ := ih
    cases hd : isDecisionText t
    · cases hp : isPreferenceText t
      · cases ha : isActionText t
        · simp [classifyEntries, List.filter_cons, hd, hp, ha, h1, h2, h3]
        · simp [classifyEntries, List.filter_cons, hd, hp, ha, h1, h2, h3]
      · simp [classifyEntries, List.filter_cons, hd, hp, h1, h2, h3]
    · simp [classifyEntries, List.filter_cons, hd, h1, h2, h3]

set_option maxRecDepth 40000 in
/-- Counterexample to claim C6: the daily text "Reviewed the decision
memo together" contains the substring "decision" (case-insensitively),
yet consolidation places it in no bucket — the code's decision keywords
are "[decision]" and "decided", not "decision". -/
theorem consolidate_keyword_mismatch :
    weekEntries [("2026-01-05", "Reviewed the decision memo together")]
        (daysFromCivil 2026 1 5)
      = ["Reviewed the decision memo together"]
    ∧ strContains (lowerStr "Reviewed the decision memo together") "decision" = true
    ∧ (classifyEntries ["Reviewed the decision memo together"]).decisions = [] := by
  refine ⟨by decide, by decide, by decide⟩

/-- Claim C6 amended: during consolidation a window file's full text is
placed in the decision bucket iff it contains "[decision]" or "decided"
(case-insensitively); in the preference bucket iff it is not a decision
and contains "prefer" or "like"; in the action bucket iff it is neither
of those and contains "[action]" or "make sure" — the branches are
if/elif, so each file lands in at most its first matching bucket —
with bucket contents in first-seen order. -/
theorem consolidate_bucket_classification (memFiles : Fs) (ws : Int) :
    (classifyEntries (weekEntries memFiles ws)).decisions
        = (weekEntries memFiles ws).filter isDecisionText
    ∧ (classifyEntries (weekEntries memFiles ws)).preferences
        = (weekEntries memFiles ws).filter
            (fun t => !isDecisionText t && isPreferenceText t)
    ∧ (classifyEntries (weekEntries memFiles ws)).actions
        = (weekEntries memFiles ws).filter
            (fun t => !isDecisionText t && !isPreferenceText t && isActionText t) :=
  classifyEntries_eq_filter _

theorem fsGet_fsWrite_ne {α : Type} (fs : List (String × α)) (k k' : String) (v : α)
    (h : k' ≠ k) : fsGet (fsWrite fs k v) k' = fsGet fs k' := by
  induction fs with
  | nil => simp [fsWrite, fsGet, Ne.symm h]
  | cons p rest ih =>
    by_cases hp : p.1 = k
    · have hne : ¬(p.1 = k') := by rw [hp]; exact fun e => h e.symm
      simp [fsWrite, fsGet, hp, hne, Ne.symm h]
    · simp [fsWrite, fsGet, hp, ih]

set_option maxRecDepth 40000 in
/-- Counterexample to claim C7: two qualifying entries whose own
timestamps fall on 2026-02-01 and 2026-02-02 are both written by the
ingest pipeline to the 2026-02-01 daily file (the calendar date of the
batch's first message), and no 2026-02-02 file is created. -/
theorem ingest_dates_by_first_message :
    fsKeys (ingestSessionMessages []
        [⟨"user", "We spent the morning reviewing the quarterly budget numbers.",
          daysFromCivil 2026 2 1 * 86400⟩,
         ⟨"user", "In the evening we booked the venue for the spring workshop.",
          daysFromCivil 2026 2 2 * 86400⟩]).1
      = ["2026-02-01"]
    ∧ fsGet (ingestSessionMessages []
        [⟨"user", "We spent the morning reviewing the quarterly budget numbers.",
          daysFromCivil 2026 2 1 * 86400⟩,
         ⟨"user", "In the evening we booked the venue for the spring workshop.",
          daysFromCivil 2026 2 2 * 86400⟩]).1 "2026-02-02" = none
    ∧ strContains ((fsGet (ingestSessionMessages []
        [⟨"user", "We spent the morning reviewing the quarterly budget numbers.",
          daysFromCivil 2026 2 1 * 86400⟩,
         ⟨"user", "In the evening we booked the venue for the spring workshop.",
          daysFromCivil 2026 2 2 * 86400⟩]).1 "2026-02-01").getD "")
        "In the evening we booked the venue for the spring workshop." = true := by
  refine ⟨by decide, by decide, by decide⟩

/-- Claim C7 amended: `save_to_daily_memory` writes a nonempty batch to
the single DailyFile named by the calendar date of its `session_date`
argument — which the ingest pipeline binds to the batch's first
message's timestamp, not to each entry's own timestamp and not to the
ingestion-time clock — creating that file if absent; the write appends
a block rendering at most the first 20 entries after the existing
content, never rewriting it, and leaves every other file untouched; the
returned count is `len(entries)`. -/
theorem save_to_daily_memory_appends (memFiles : Fs) (entries : List MemEntry)
    (sd : Int) (h : entries ≠ []) :
    (save_to_daily_memory memFiles entries sd).2 = entries.length
    ∧ fsGet (save_to_daily_memory memFiles entries sd).1 (formatDate (dayOf sd))
        = some ((fsGet memFiles (formatDate (dayOf sd))).getD ""
            ++ sessionBlock entries sd)
    ∧ (∀ k, k ≠ formatDate (dayOf sd) →
        fsGet (save_to_daily_memory memFiles entries sd).1 k = fsGet memFiles k) := by
  have hb : entries.isEmpty = false := by
    cases entries with
    | nil => exact absurd rfl h
    | cons a t => rfl
  refine ⟨?_, ?_, ?_⟩
  · simp [save_to_daily_memory, hb]
  · simp only [save_to_daily_memory, hb, Bool.false_eq_true, if_false]
    exact fsGet_fsWrite_self _ _ _
  · intro k hk
    simp only [save_to_daily_memory, hb, Bool.false_eq_true, if_false]
    exact fsGet_fsWrite_ne _ _ _ _ hk

/-- Witness for the amended C7 at a one-entry batch over a store
already holding a file for another date. -/
theorem save_to_daily_memory_appends_witness :
    (save_to_daily_memory [("1970-01-05", "older note")]
        [⟨"We confirmed the caterer for Saturday.", "conversation", "user"⟩] 0).2 = 1
    ∧ fsGet (save_to_daily_memory [("1970-01-05", "older note")]
        [⟨"We confirmed the caterer for Saturday.", "conversation", "user"⟩] 0).1
        (formatDate (dayOf 0))
      = some ((fsGet [("1970-01-05", "older note")] (formatDate (dayOf 0))).getD ""
          ++ sessionBlock
              [⟨"We confirmed the caterer for Saturday.", "conversation", "user"⟩] 0)
    ∧ fsGet (save_to_daily_memory [("1970-01-05", "older note")]
        [⟨"We confirmed the caterer for Saturday.", "conversation", "user"⟩] 0).1
        "1970-01-05"
      = fsGet [("1970-01-05", "older note")] "1970-01-05" :=
  ⟨(save_to_daily_memory_appends [("1970-01-05", "older note")]
      [⟨"We confirmed the caterer for Saturday.", "conversation", "user"⟩] 0
      (by decide)).1,
   (save_to_daily_memory_appends [("1970-01-05", "older note")]
      [⟨"We confirmed the caterer for Saturday.", "conversation", "user"⟩] 0
      (by decide)).2.1,
   (save_to_daily_memory_appends [("1970-01-05", "older note")]
      [⟨"We confirmed the caterer for Saturday.", "conversation", "user"⟩] 0
      (by decide)).2.2 "1970-01-05" (by decide)⟩

theorem memPath_inj {a b : String}
    (h : MEMORY_DIR ++ "/" ++ a ++ ".md" = MEMORY_DIR ++ "/" ++ b ++ ".md") :
    a = b := by
  have hd : (MEMORY_DIR ++ "/").data ++ a.data ++ ".md".data
      = (MEMORY_DIR ++ "/").data ++ b.data ++ ".md".data := congrArg String.data h
  exact String.ext (List.append_cancel_left (List.append_cancel_right hd))

theorem mem_fileSearchHits {v : VecHit} {q nm content : String}
    (h : v ∈ fileSearchHits q nm content) :
    v.file = some (MEMORY_DIR ++ "/" ++ nm ++ ".md")
      ∧ v.score = (1 : Rat) / 2 ∧ v.collection = "file" := by
  unfold fileSearchHits at h
  rw [List.mem_filterMap] at h
  obtain ⟨line, -, hl⟩ := h
  split at hl
  · cases hl
  · cases hl
    exact ⟨rfl, rfl, rfl⟩

theorem fileSearchHits_length_le (q nm content : String) :
    (fileSearchHits q nm content).length ≤ 3 := by
  unfold fileSearchHits
  exact le_trans (List.length_filterMap_le _ _) (List.length_take_le _ _)

theorem mem_file_based_search {v : VecHit} {q : String} :
    ∀ {fs : Fs}, v ∈ file_based_search q fs →
      ∃ p, p ∈ fs ∧ v ∈ fileSearchHits q p.1 p.2 := by
  intro fs
  induction fs with
  | nil => intro h; simp [file_based_search] at h
  | cons p rest ih =>
    intro h
    simp only [file_based_search, List.mem_append] at h
    rcases h with h | h
    · refine ⟨p, by simp, ?_⟩
      by_cases hw : strStartsWith p.1 "Week_"
      · simp [hw] at h
      · simpa [hw] using h
    · obtain ⟨p', hp', hv⟩ := ih h
      exact ⟨p', by simp [hp'], hv⟩

theorem file_based_search_filter_le (q target : String) :
    ∀ (fs : Fs), (fsKeys fs).Nodup →
      ((file_based_search q fs).filter
        (fun v => v.file == some (MEMORY_DIR ++ "/" ++ target ++ ".md"))).length ≤ 3 := by
  intro fs
  induction fs with
  | nil => intro h; simp [file_based_search]
  | cons p rest ih =>
    intro h
    have hkeys : fsKeys (p :: rest) = p.1 :: fsKeys rest := rfl
    have hn : p.1 ∉ fsKeys rest := by
      have h' := h
      rw [hkeys] at h'
      exact (List.nodup_cons.mp h').1
    have ht : (fsKeys rest).Nodup := by
      have h' := h
      rw [hkeys] at h'
      exact (List.nodup_cons.mp h').2
    simp only [file_based_search, List.filter_append, List.length_append]
    by_cases heq : p.1 = target
    · have htail : ((file_based_search q rest).filter
          (fun v => v.file == some (MEMORY_DIR ++ "/" ++ target ++ ".md"))).length = 0 := by
        rw [List.length_eq_zero, List.filter_eq_nil_iff]
        intro v hv hb
        obtain ⟨p', hp', hvmem⟩ := mem_file_based_search hv
        have hfile := (mem_fileSearchHits hvmem).1
        have hb' : v.file = some (MEMORY_DIR ++ "/" ++ target ++ ".md") := by
          simpa using hb
        rw [hfile] at hb'
        have hpt : p'.1 = target := memPath_inj (Option.some.inj hb')
        have hmem : p'.1 ∈ fsKeys rest := List.mem_map_of_mem Prod.fst hp'
        rw [hpt, ← heq] at hmem
        exact hn hmem
      have hhead : ((if strStartsWith p.1 "Week_" = true then []
          else fileSearchHits q p.1 p.2).filter
          (fun v => v.file == some (MEMORY_DIR ++ "/" ++ target ++ ".md"))).length ≤ 3 := by
        split
        · simp
        · exact le_trans (List.length_filter_le _ _) (fileSearchHits_length_le _ _ _)
      omega
    · have hhead : ((if strStartsWith p.1 "Week_" = true then []
          else fileSearchHits q p.1 p.2).filter
          (fun v => v.file == some (MEMORY_DIR ++ "/" ++ target ++ ".md"))).length = 0 := by
        rw [List.length_eq_zero, List.filter_eq_nil_iff]
        intro v hv hb
        have hvmem : v ∈ fileSearchHits q p.1 p.2 := by
          by_cases hw : strStartsWith p.1 "Week_"
          · simp [hw] at hv
          · simpa [hw] using hv
        have hfile := (mem_fileSearchHits hvmem).1
        have hb' : v.file = some (MEMORY_DIR ++ "/" ++ target ++ ".md") := by
          simpa using hb
        rw [hfile] at hb'
        exact heq (memPath_inj (Option.some.inj hb'))
      have := ih ht
      omega

/-- Claim C1: when every embedding call raises, the retrieval router
still returns the daily and weekly keyword-scan results, serves the
vectors portion from the lexical file-based fallback (case-insensitive
per-line grep, at most 3 matches per file, each with the fixed lower
score 1/2 and collection label "file"), and labels the result
`source = "files"`. -/
theorem query_fallback_degradation (st : BrainState) (backend : Backend)
    (q : String) (now : Int)
    (hembed : backend.embed q = none)
    (hnodup : (fsKeys st.memFiles).Nodup) :
    let r := query_with_fallback st backend q true true now
    r.source = "files"
    ∧ r.daily = query_daily_memory st.memFiles q 7 now
    ∧ r.weekly = query_weekly_memory st.distilled q
    ∧ r.vectors = file_based_search q st.memFiles
    ∧ (∀ v ∈ r.vectors, v.score = (1 : Rat) / 2 ∧ v.collection = "file")
    ∧ (∀ nm, (r.vectors.filter
        (fun v => v.file == some (MEMORY_DIR ++ "/" ++ nm ++ ".md"))).length ≤ 3) := by
  intro r
  have hv : vector_search_fallback backend q = none := by
    simp [vector_search_fallback, hembed]
  have hr : r = ⟨"files", query_daily_memory st.memFiles q 7 now,
      query_weekly_memory st.distilled q, file_based_search q st.memFiles⟩ := by
    simp [r, query_with_fallback, hv]
  refine ⟨by rw [hr], by rw [hr], by rw [hr], by rw [hr], ?_, ?_⟩
  · intro v hvm
    rw [hr] at hvm
    obtain ⟨p, -, hmem⟩ := mem_file_based_search hvm
    exact ⟨(mem_fileSearchHits hmem).2.1, (mem_fileSearchHits hmem).2.2⟩
  · intro nm
    rw [hr]
    exact file_based_search_filter_le q nm st.memFiles hnodup

/-- Witness for C1: an unreachable backend at a concrete store. -/
theorem query_fallback_degradation_witness :
    (query_with_fallback brainC1 failBackend "tea" true true 0).source = "files"
    ∧ (query_with_fallback brainC1 failBackend "tea" true true 0).vectors
        = file_based_search "tea" brainC1.memFiles
    ∧ ((query_with_fallback brainC1 failBackend "tea" true true 0).vectors.filter
        (fun v => v.file == some (MEMORY_DIR ++ "/" ++ "2026-01-05" ++ ".md"))).length
        ≤ 3 :=
  ⟨(query_fallback_degradation brainC1 failBackend "tea" 0 rfl (by decide)).1,
   (query_fallback_degradation brainC1 failBackend "tea" 0 rfl (by decide)).2.2.2.1,
   (query_fallback_degradation brainC1 failBackend "tea" 0 rfl
      (by decide)).2.2.2.2.2 "2026-01-05"⟩

theorem pruneFiles_eq (cutoff : Int) :
    ∀ fs : Fs, pruneFiles cutoff fs
      = (fs.filter (fun p => !pruneEligible cutoff p.1),
         fs.filter (fun p => pruneEligible cutoff p.1),
         fs.countP (fun p => pruneEligible cutoff p.1),
         fs.countP (fun p => !strStartsWith p.1 "Week_" && !pruneEligible cutoff p.1)) := by
  intro fs
  induction fs with
  | nil => rfl
  | cons p rest ih =>
    simp only [pruneFiles, ih]
    by_cases hw : strStartsWith p.1 "Week_"
    · simp [pruneEligible, hw, List.filter_cons, List.countP_cons]
    · cases hd : parseDate p.1 with
      | none =>
        simp [pruneEligible, hw, hd, List.filter_cons, List.countP_cons]
      | some d =>
        by_cases hc : (d * 86400 : Int) < cutoff
        · simp [pruneEligible, hw, hd, hc, List.filter_cons, List.countP_cons]
        · simp [pruneEligible, hw, hd, hc, List.filter_cons, List.countP_cons]

theorem fsGet_foldl_fsWrite_not_mem {α : Type} (l : List (String × α)) :
    ∀ (a : List (String × α)) (k : String), k ∉ fsKeys l →
      fsGet (l.foldl (fun acc p => fsWrite acc p.1 p.2) a) k = fsGet a k := by
  induction l with
  | nil => intro a k _; rfl
  | cons p rest ih =>
    intro a k h
    have hk : k ∉ fsKeys rest := fun hm => h (by simp [fsKeys, List.mem_map] at hm ⊢; right; exact hm)
    have hne : k ≠ p.1 := fun e => h (by simp [fsKeys, e])
    simp only [List.foldl_cons]
    rw [ih _ k hk, fsGet_fsWrite_ne _ _ _ _ hne]

theorem fsGet_foldl_fsWrite_mem {α : Type} (l : List (String × α)) :
    ∀ (a : List (String × α)) (p : String × α), p ∈ l → (fsKeys l).Nodup →
      fsGet (l.foldl (fun acc p => fsWrite acc p.1 p.2) a) p.1 = some p.2 := by
  induction l with
  | nil => intro a p hp; cases hp
  | cons q rest ih =>
    intro a p hp hnd
    have hnd' : (q.1 :: fsKeys rest).Nodup := hnd
    rcases List.mem_cons.mp hp with he | hm
    · subst he
      simp only [List.foldl_cons]
      have hk : p.1 ∉ fsKeys rest := (List.nodup_cons.mp hnd').1
      rw [fsGet_foldl_fsWrite_not_mem rest _ p.1 hk]
      exact fsGet_fsWrite_self _ _ _
    · simp only [List.foldl_cons]
      exact ih _ p hm (List.nodup_cons.mp hnd').2

/-- Claim C8: `prune_old_files` relocates every non-weekly daily file
whose stem parses as a date older than `now - retention_days` into the
archive with its content preserved; every non-weekly file whose stem
does not parse as a date, or parses as a recent date, stays in place
(and the archive is untouched at its key); nothing is deleted — every
file survives in the daily directory or the archive; the returned
counts are the number of relocated files and the number of non-weekly
kept files. -/
theorem prune_relocates (st : BrainState) (rd : Nat) (now : Int)
    (hnodup : (fsKeys st.memFiles).Nodup) :
    let cutoff : Int := now - (rd : Int) * 86400
    let r := prune_old_files st rd now
    r.2.1 = st.memFiles.countP (fun p => pruneEligible cutoff p.1)
    ∧ r.2.2 = st.memFiles.countP
        (fun p => !strStartsWith p.1 "Week_" && !pruneEligible cutoff p.1)
    ∧ (∀ p ∈ st.memFiles, ∀ d : Int, parseDate p.1 = some d →
        ¬strStartsWith p.1 "Week_" = true →
        ((d * 86400 < cutoff →
            p.1 ∉ fsKeys r.1.memFiles ∧ fsGet r.1.archiveDir p.1 = some p.2)
          ∧ (¬(d * 86400 < cutoff) →
            p ∈ r.1.memFiles ∧ fsGet r.1.archiveDir p.1 = fsGet st.archiveDir p.1)))
    ∧ (∀ p ∈ st.memFiles, parseDate p.1 = none → p ∈ r.1.memFiles)
    ∧ (∀ p ∈ st.memFiles, p ∈ r.1.memFiles ∨ fsGet r.1.archiveDir p.1 = some p.2) := by
  intro cutoff r
  have hpf := pruneFiles_eq cutoff st.memFiles
  have hrm : r.1.memFiles = st.memFiles.filter (fun p => !pruneEligible cutoff p.1) := by
    show (pruneFiles cutoff st.memFiles).1 = _
    rw [hpf]
  have hra : r.1.archiveDir
      = (st.memFiles.filter (fun p => pruneEligible cutoff p.1)).foldl
          (fun a p => fsWrite a p.1 p.2) st.archiveDir := by
    show ((pruneFiles cutoff st.memFiles).2.1).foldl
        (fun a p => fsWrite a p.1 p.2) st.archiveDir = _
    rw [hpf]
  have hmoved_nodup :
      (fsKeys (st.memFiles.filter (fun p => pruneEligible cutoff p.1))).Nodup :=
    List.Nodup.sublist (List.Sublist.map _ (List.filter_sublist _)) hnodup
  refine ⟨?_, ?_, ?_, ?_, ?_⟩
  · show (pruneFiles cutoff st.memFiles).2.2.1 = _
    rw [hpf]
  · show (pruneFiles cutoff st.memFiles).2.2.2 = _
    rw [hpf]
  · intro p hp d hd hw
    have he_def : pruneEligible cutoff p.1 = decide ((d * 86400 : Int) < cutoff) := by
      simp [pruneEligible, hw, hd]
    constructor
    · intro hlt
      have he : pruneEligible cutoff p.1 = true := by
        rw [he_def]; exact decide_eq_true hlt
      constructor
      · rw [hrm]
        intro hk
        obtain ⟨p', hp'mem, hp'eq⟩ := List.mem_map.mp hk
        have h2 := (List.mem_filter.mp hp'mem).2
        rw [hp'eq, he] at h2
        simp at h2
      · rw [hra]
        exact fsGet_foldl_fsWrite_mem _ st.archiveDir p
          (List.mem_filter.mpr ⟨hp, he⟩) hmoved_nodup
    · intro hge
      have he : pruneEligible cutoff p.1 = false := by
        rw [he_def]
        simpa using hge
      constructor
      · rw [hrm]
        exact List.mem_filter.mpr ⟨hp, by simp [he]⟩
      · rw [hra]
        refine fsGet_foldl_fsWrite_not_mem _ _ _ ?_
        intro hk
        obtain ⟨p', hp'mem, hp'eq⟩ := List.mem_map.mp hk
        have h2 := (List.mem_filter.mp hp'mem).2
        rw [hp'eq, he] at h2
        cases h2
  · intro p hp hd
    have he : pruneEligible cutoff p.1 = false := by simp [pruneEligible, hd]
    rw [hrm]
    exact List.mem_filter.mpr ⟨hp, by simp [he]⟩
  · intro p hp
    cases he : pruneEligible cutoff p.1
    · left
      rw [hrm]
      exact List.mem_filter.mpr ⟨hp, by simp [he]⟩
    · right
      rw [hra]
      exact fsGet_foldl_fsWrite_mem _ st.archiveDir p
        (List.mem_filter.mpr ⟨hp, he⟩) hmoved_nodup

set_option maxRecDepth 40000 in
/-- Witness for C8: `prune(7)` on a store with files dated today,
3 days ago and 10 days ago relocates exactly the 10-day-old file. -/
theorem prune_relocates_witness :
    (prune_old_files brainC8 7 nowC8).2.1 = 1
    ∧ (prune_old_files brainC8 7 nowC8).2.2 = 3
    ∧ "2025-12-31" ∉ fsKeys (prune_old_files brainC8 7 nowC8).1.memFiles
    ∧ fsGet (prune_old_files brainC8 7 nowC8).1.archiveDir "2025-12-31"
        = some "old note"
    ∧ ("2026-01-07", "recent note") ∈ (prune_old_files brainC8 7 nowC8).1.memFiles
    ∧ ("notes", "misc") ∈ (prune_old_files brainC8 7 nowC8).1.memFiles := by
  have h := prune_relocates brainC8 7 nowC8 (by decide)
  refine ⟨h.1.trans (by decide), h.2.1.trans (by decide), ?_, ?_, ?_, ?_⟩
  · exact ((h.2.2.1 ("2025-12-31", "old note") (by decide)
      (daysFromCivil 2025 12 31) (by decide) (by decide)).1 (by decide)).1
  · exact ((h.2.2.1 ("2025-12-31", "old note") (by decide)
      (daysFromCivil 2025 12 31) (by decide) (by decide)).1 (by decide)).2
  · exact ((h.2.2.1 ("2026-01-07", "recent note") (by decide)
      (daysFromCivil 2026 1 7) (by decide) (by decide)).2 (by decide)).1
  · exact h.2.2.2.1 ("notes", "misc") (by decide) (by decide)
